import Mathlib

/-!
# PackageGenerator: a shallow embedding of `src/PackageGenerator/PackageGenerator.cpp`

The development follows the source file:

* `QSize`, `QImage` with `QImage.scaled` and `QImage.copy` (the Qt value classes
  the transform uses, modelled after their documented behaviour),
* `Qreal`, the binary64 arithmetic of lines 171-176,
* `processImage` (lines 153-193) with its parts `scaleFactor`, `finalSize`,
  `needScale`, `needCrop`,
* `QMap`, `readSetting` (lines 25-60),
* `buildQRC` (lines 74-94), `processResource` and `buildRCC` (lines 96-121),
* `cleanImages` (lines 127-151) over an explicit build tree.

A `QSize` holds C++ `int`s; the model writes them as integers and the examples
stay within 32 bits.
-/

namespace PackageGenerator

/-! ## Sizes and images -/

/-- Qt's `QSize`: a pair of `int`s. -/
structure QSize where
  width : Int
  height : Int
  deriving DecidableEq, Repr

/-- `QSize::isEmpty`: either dimension is less than one. -/
def QSize.isEmpty (s : QSize) : Bool := decide (s.width < 1) || decide (s.height < 1)

/-- A `QImage` as far as the transform observes it: its size and the pixel
value at column `x`, row `y`. -/
structure QImage where
  size : QSize
  pixel : Int → Int → Nat

/-- The null image `QImage()`: no pixel data, size `0 x 0`. -/
def QImage.null : QImage := ⟨⟨0, 0⟩, fun _ _ => 0⟩

/-- `QImage::isNull`. An image holds pixel data only for a non-empty size. -/
def QImage.isNull (img : QImage) : Bool := img.size.isEmpty

/-- `QImage::scaled(size, Qt::IgnoreAspectRatio, mode)`. A null image or an empty
requested size gives the null image, the image's own size gives the image
itself, and any other size gives an image of exactly that size whose pixels
come from the interpolation `resample` (Qt's smooth transformation). -/
def QImage.scaled (resample : QImage → QSize → Int → Int → Nat)
    (img : QImage) (s : QSize) : QImage :=
  if img.isNull then QImage.null
  else if s.isEmpty then QImage.null
  else if s = img.size then img
  else ⟨s, resample img s⟩

/-- `QImage::copy(x, y, w, h)`. The result has size `w x h`; the pixel at
`(i, j)` is the source pixel at `(x + i, y + j)`, and `0` where the rectangle
lies outside the source. A rectangle with `w = 0` and `h = 0` is Qt's null
rectangle, for which the whole image is copied. -/
def QImage.copy (img : QImage) (x y w h : Int) : QImage :=
  if img.isNull then QImage.null
  else if w = 0 ∧ h = 0 then img
  else if w ≤ 0 ∨ h ≤ 0 then QImage.null
  else ⟨⟨w, h⟩, fun i j =>
    if 0 ≤ i ∧ i < w ∧ 0 ≤ j ∧ j < h ∧
        0 ≤ x + i ∧ x + i < img.size.width ∧ 0 ≤ y + j ∧ y + j < img.size.height
    then img.pixel (x + i) (y + j) else 0⟩

/-! ## `qreal` arithmetic

`qreal` is `double`, the IEEE 754 binary64 format. A finite value is written as
the rational it denotes (the two zeros are not told apart: no operation below
divides by a computed value); every operation rounds its exact result to the
nearest binary64 value, ties to the even significand. -/

/-- Rounding to the nearest integer, ties to the even one. -/
def roundHalfEven (x : ℚ) : Int :=
  if x - ⌊x⌋ < 1 / 2 then ⌊x⌋
  else if 1 / 2 < x - ⌊x⌋ then ⌊x⌋ + 1
  else if ⌊x⌋ % 2 = 0 then ⌊x⌋ else ⌊x⌋ + 1

/-- Rounding of an exact result to binary64: with `k = ⌊log2 |q|⌋` the value is
scaled by `2^(52 - k)` into `[2^52, 2^53)`, rounded to an integer significand of
53 bits and scaled back. The exponent is not bounded: quotients and products of
`int` values stay far inside the normal range of binary64. -/
def roundToDouble (q : ℚ) : ℚ :=
  if q = 0 then 0
  else (roundHalfEven (q / 2 ^ (Int.log 2 |q| - 52)) : ℚ) * 2 ^ (Int.log 2 |q| - 52)

/-- A `qreal` value: finite, an infinity, or not a number. -/
inductive Qreal where
  | finite (value : ℚ)
  | posInf
  | negInf
  | nan

/-- The quotient `((qreal)a) / ((qreal)b)` of two `int`s: the conversions are
exact, the quotient is rounded; division by zero gives an infinity with the sign
of `a`, and `0 / 0` is not a number. -/
def Qreal.divInt (a b : Int) : Qreal :=
  if b = 0 then
    if 0 < a then Qreal.posInf else if a < 0 then Qreal.negInf else Qreal.nan
  else Qreal.finite (roundToDouble ((a : ℚ) / (b : ℚ)))

/-- The comparison `a < b` of two `qreal`s; false when either is not a number. -/
def Qreal.lt : Qreal → Qreal → Bool
  | Qreal.nan, _ => false
  | _, Qreal.nan => false
  | Qreal.finite a, Qreal.finite b => decide (a < b)
  | Qreal.finite _, Qreal.posInf => true
  | Qreal.finite _, Qreal.negInf => false
  | Qreal.posInf, _ => false
  | Qreal.negInf, Qreal.negInf => false
  | Qreal.negInf, _ => true

/-- `std::max(a, b)`, which is `(a < b) ? b : a`. -/
def Qreal.max (a b : Qreal) : Qreal := if a.lt b then b else a

/-- The product `n * x` of an `int` and a `qreal`: the `int` is converted
exactly, the product is rounded; an infinity times zero is not a number. -/
def Qreal.mulInt (n : Int) : Qreal → Qreal
  | Qreal.finite q => Qreal.finite (roundToDouble ((n : ℚ) * q))
  | Qreal.posInf => if 0 < n then Qreal.posInf else if n < 0 then Qreal.negInf else Qreal.nan
  | Qreal.negInf => if 0 < n then Qreal.negInf else if n < 0 then Qreal.posInf else Qreal.nan
  | Qreal.nan => Qreal.nan

/-- The smallest `int`, `-2^31`. -/
def INT_MIN : Int := -2147483648

/-- The largest `int`, `2^31 - 1`. -/
def INT_MAX : Int := 2147483647

/-- Conversion of a `qreal` to `int`: truncation toward zero. When the truncated
value does not fit an `int`, and for infinities and NaN, C++ leaves the result
undefined; the model then gives `INT_MIN`, the result of the x86-64 conversion
instruction. The general theorems below assume the value fits. -/
def toInt : Qreal → Int
  | Qreal.finite q =>
    if INT_MIN ≤ Int.tdiv q.num q.den ∧ Int.tdiv q.num q.den ≤ INT_MAX then Int.tdiv q.num q.den
    else INT_MIN
  | _ => INT_MIN

/-- `std::numeric_limits<double>::epsilon()`, which is `2^-52`. -/
def epsilon : ℚ := 1 / 2 ^ 52

/-! ## `processImage` -/

/-- Lines 171-172: the larger of the two target/source ratios, height ratio
first. -/
def scaleFactor (sourceSize targetSize : QSize) : Qreal :=
  Qreal.max (Qreal.divInt targetSize.height sourceSize.height)
            (Qreal.divInt targetSize.width sourceSize.width)

/-- Line 174: `QSize finalSize(width * scaleFactor, height * scaleFactor)`, the
two `qreal` products converted to `int`. -/
def finalSize (imageSize : QSize) (sf : Qreal) : QSize :=
  ⟨toInt (Qreal.mulInt imageSize.width sf), toInt (Qreal.mulInt imageSize.height sf)⟩

/-- Line 176: `!std::islessequal(std::abs(scaleFactor - 1.0), epsilon)`. The
difference is rounded; for an infinity the absolute difference is infinite, and
`islessequal` is false for NaN, so in both cases the result is true. -/
def needScale : Qreal → Bool
  | Qreal.finite q => !decide (|roundToDouble (q - 1)| ≤ epsilon)
  | _ => true

/-- Line 182: `crop && (fw > tw) || fh > th`. In C++ `&&` binds tighter than
`||`, so the condition is `(crop && fw > tw) || (fh > th)`. -/
def needCrop (crop : Bool) (fin targetSize : QSize) : Bool :=
  (crop && decide (fin.width > targetSize.width)) || decide (fin.height > targetSize.height)

/-- Lines 176-180: the image after the scaling step. -/
def scaledImage (resample : QImage → QSize → Int → Int → Nat)
    (sourceImage : QImage) (sf : Qreal) : QImage :=
  if needScale sf then sourceImage.scaled resample (finalSize sourceImage.size sf)
  else sourceImage

/-- Lines 171-187: the image handed to `save`, from the loaded source image.
The two differences of line 184-185 are taken without `int` overflow. -/
def transform (resample : QImage → QSize → Int → Int → Nat)
    (sourceImage : QImage) (sourceSize targetSize : QSize) (crop : Bool) : QImage :=
  let sf := scaleFactor sourceSize targetSize
  let fin := finalSize sourceImage.size sf
  let img := scaledImage resample sourceImage sf
  if needCrop crop fin targetSize then
    img.copy (Int.tdiv (fin.width - targetSize.width) 2)
             (Int.tdiv (fin.height - targetSize.height) 2)
             fin.width fin.height
  else img

/-- What `processImage` finds on disk: whether the target file exists, whether
the target folder can be created, and the result of loading the source file. -/
structure ImageEnv where
  targetExists : Bool
  mkpathOk : Bool
  loaded : Option QImage

/-- Lines 153-193: `processImage`. The result is the image passed to `save`,
or `none` when the function returns before saving. -/
def processImage (resample : QImage → QSize → Int → Int → Nat) (env : ImageEnv)
    (sourceSize targetSize : QSize) (crop : Bool) : Option QImage :=
  if env.targetExists then none
  else if !env.mkpathOk then none
  else match env.loaded with
    | none => none
    | some sourceImage => some (transform resample sourceImage sourceSize targetSize crop)

/-- A `1 x 3` image with pixel column `1, 2, 3`. -/
def column123 : QImage :=
  ⟨⟨1, 3⟩, fun x y => if x = 0 then (if y = 0 then 1 else if y = 1 then 2 else if y = 2 then 3 else 0) else 0⟩

/-- A `1 x 1` image with pixel `7`. -/
def dot7 : QImage := ⟨⟨1, 1⟩, fun x y => if x = 0 ∧ y = 0 then 7 else 0⟩

/-- An environment in which the target is absent, the folder can be made and
the source file loads as `img`. -/
def freshEnv (img : QImage) : ImageEnv := ⟨false, true, some img⟩

/-- Nearest-neighbour stand-in for the interpolation, for concrete evaluation. -/
def nearest : QImage → QSize → Int → Int → Nat :=
  fun img s x y => img.pixel (x * img.size.width / s.width) (y * img.size.height / s.height)

/-- A `w x h` image with every pixel `0`. -/
def blank (w h : Int) : QImage := ⟨⟨w, h⟩, fun _ _ => 0⟩

/-! ## The package model and `readSetting` -/

/-- The per-image record of `PackageGenerator.h`, with the three fields the
source file uses. -/
structure ImageSetting where
  sourceSizes : List QSize
  usedSizes : List QSize
  crop : Bool
  deriving DecidableEq, Repr

/-- `QMap<QString, T>`: the entries, kept in ascending key order by `insert`. -/
structure QMap (V : Type) where
  entries : List (String × V)

/-- The value stored under `k`, or `dflt` when the key is absent. -/
def lookupEntry {V : Type} (k : String) (dflt : V) : List (String × V) → V
  | [] => dflt
  | e :: rest => if k = e.1 then e.2 else lookupEntry k dflt rest

/-- `QMap::value(key, defaultValue)`. -/
def QMap.value {V : Type} (m : QMap V) (k : String) (dflt : V) : V :=
  lookupEntry k dflt m.entries

/-- `QMap::keys`: the keys in iteration order, which is ascending. -/
def QMap.keys {V : Type} (m : QMap V) : List String := m.entries.map Prod.fst

/-- `QMap::contains`. -/
def QMap.contains {V : Type} (m : QMap V) (k : String) : Bool := m.keys.contains k

/-- The class invariant of `QMap`: keys strictly ascending. -/
def QMap.WF {V : Type} (m : QMap V) : Prop := m.keys.Sorted (· < ·)

/-- The members `_targetSizes` and `_imageSettings`. -/
structure PackageModel where
  targetSizes : List QSize
  imageSettings : QMap ImageSetting

/-- A stand-in for `FKUtility::stringToSize` on the tokens used in the examples;
any other string gives the invalid size `QSize()`. -/
def sizeTable (tok : String) : QSize :=
  if tok = "48x48" then ⟨48, 48⟩
  else if tok = "96x96" then ⟨96, 96⟩
  else if tok = "64x64" then ⟨64, 64⟩
  else ⟨-1, -1⟩

/-- A stand-in for `FKUtility::sizeToString` on the sizes used in the examples. -/
def tokenTable (s : QSize) : String :=
  if s = ⟨48, 48⟩ then "48x48"
  else if s = ⟨96, 96⟩ then "96x96"
  else if s = ⟨64, 64⟩ then "64x64"
  else "invalid"

/-! ## `buildQRC` -/

/-- The calls made on the `QXmlStreamWriter`, in order. -/
inductive XmlToken where
  | startElement (name : String)
  | attribute (name value : String)
  | textElement (name text : String)
  | endElement
  deriving DecidableEq, Repr

/-- Lines 80-87: the document written for one size set. -/
def writeManifest (dirName : String) (imageSettings : QMap ImageSetting) : List XmlToken :=
  [XmlToken.startElement "RCC", XmlToken.startElement "qresource",
    XmlToken.attribute "prefix" dirName]
  ++ imageSettings.keys.map (fun k => XmlToken.textElement "file" k)
  ++ [XmlToken.endElement, XmlToken.endElement]

/-- The path `<buildFolder>/<sizeset>/package.qrc` of line 77. -/
def qrcPath (buildFolder sizeset : String) : String :=
  buildFolder ++ "/" ++ sizeset ++ "/package.qrc"

/-- Lines 75-93: the loop of `buildQRC` over the remaining target sizes. The
result is the returned flag and the files written, in order; `canOpen` tells
whether a path can be opened for writing. -/
def buildQRCLoop (sizeToString : QSize → String) (canOpen : String → Bool)
    (buildFolder dirName : String) (imageSettings : QMap ImageSetting) :
    List QSize → Bool × List (String × List XmlToken)
  | [] => (true, [])
  | size :: rest =>
    let sizeset := sizeToString size
    if canOpen (qrcPath buildFolder sizeset) then
      let r := buildQRCLoop sizeToString canOpen buildFolder dirName imageSettings rest
      (r.1, (qrcPath buildFolder sizeset, writeManifest dirName imageSettings) :: r.2)
    else (false, [])

/-- Lines 74-94: `buildQRC`. -/
def buildQRC (sizeToString : QSize → String) (canOpen : String → Bool)
    (buildFolder dirName : String) (m : PackageModel) : Bool × List (String × List XmlToken) :=
  buildQRCLoop sizeToString canOpen buildFolder dirName m.imageSettings m.targetSizes

/-! ## `processResource` and `buildRCC` -/

/-- A `QProcess` object: its position in the pool, program and arguments. -/
structure QProcess where
  index : Nat
  program : String
  arguments : List String
  deriving DecidableEq, Repr

/-- What the external process does, as `processResource` observes it:
the result of `waitForStarted()`, the result of `waitForFinished(msecs)` for
each timeout, and the exit code. -/
structure ProcessRun where
  waitForStarted : Bool
  waitForFinished : Int → Bool
  exitCode : Int

/-- Lines 96-103: `processResource`. -/
def processResource (run : ProcessRun) : Bool :=
  run.waitForStarted && run.waitForFinished (60000 * 10) && decide (run.exitCode = 0)

/-- Lines 107-115: the pool built from the target sizes, starting at index `s`.
Line 108 builds the path with two chained calls of `QString::arg`, which is the
parameter `arg` (template first, then the text that replaces the place marker
with the lowest number). -/
def processPoolFrom (arg : String → String → String) (sizeToString : QSize → String)
    (buildPath : String) : Nat → List QSize → List QProcess
  | _, [] => []
  | s, size :: rest =>
    let path := arg (arg "%1/%2" buildPath) (sizeToString size)
    ⟨s, "rcc", ["-binary", path ++ "/package.qrc", "-o", path ++ ".rcc"]⟩
      :: processPoolFrom arg sizeToString buildPath (s + 1) rest

/-- Lines 106-115: `processPool`. -/
def processPool (arg : String → String → String) (sizeToString : QSize → String)
    (buildPath : String) (targetSizes : List QSize) : List QProcess :=
  processPoolFrom arg sizeToString buildPath 0 targetSizes

/-- Line 116: `QtConcurrent::blockingMapped(processPool, processResource)`:
`processResource` is applied to every process of the pool and the results come
in pool order; `exec` is the behaviour of each process. -/
def jobResults (exec : QProcess → ProcessRun) (pool : List QProcess) : List Bool :=
  pool.map (fun p => processResource (exec p))

/-- Lines 117-120: return `false` at the first failed result, else `true`. -/
def allSucceeded : List Bool → Bool
  | [] => true
  | r :: rest => if !r then false else allSucceeded rest

/-- Lines 105-121: `buildRCC`. -/
def buildRCC (exec : QProcess → ProcessRun) (arg : String → String → String)
    (sizeToString : QSize → String) (buildPath : String) (targetSizes : List QSize) : Bool :=
  allSucceeded (jobResults exec (processPool arg sizeToString buildPath targetSizes))

/-! ## `cleanImages` -/

/-- A node of the build tree: a regular file with its content, or a directory
with its named entries in listing order. Each carries the hidden attribute (on
Unix: the name starts with a dot). Symbolic links and special files are not
modelled. -/
inductive FsNode where
  | file (hidden : Bool) (data : List Nat)
  | dir (hidden : Bool) (entries : List (String × FsNode))

/-- Whether `entryList(QDir::Files)` lists the node: a file that is not hidden
(the filter has no `QDir::Hidden`). -/
def FsNode.listedAsFile : FsNode → Bool
  | FsNode.file hidden _ => !hidden
  | FsNode.dir _ _ => false

/-- Whether `entryList(QDir::Dirs | QDir::NoDotAndDotDot)` lists the node: a
directory that is not hidden. -/
def FsNode.listedAsDir : FsNode → Bool
  | FsNode.dir hidden _ => !hidden
  | FsNode.file _ _ => false

/-- The entries of a directory node; a file has none. -/
def FsNode.content : FsNode → List (String × FsNode)
  | FsNode.dir _ entries => entries
  | FsNode.file _ _ => []

/-- The directory node with its entries replaced; a file stays as it is. -/
def FsNode.withContent : FsNode → List (String × FsNode) → FsNode
  | FsNode.dir hidden _, entries => FsNode.dir hidden entries
  | FsNode.file hidden data, _ => FsNode.file hidden data

/-- Which deletions and creations succeed: `removeRecursively` and `mkdir(".")`
on the build folder, `removeRecursively` on a top-level directory, and
`remove` of a file in a top-level directory. -/
structure FsOracle where
  removeBuildFolder : Bool
  mkdirBuildFolder : Bool
  removeRecursively : String → Bool
  remove : String → String → Bool

/-- Lines 139-146: the loop over the listed files of one size directory. The
result is the success flag and the directory content afterwards. -/
def cleanFiles (known : String → Bool) (remove : String → Bool) :
    List (String × FsNode) → Bool × List (String × FsNode)
  | [] => (true, [])
  | (image, node) :: rest =>
    if node.listedAsFile then
      if !known image then
        if !remove image then (false, (image, node) :: rest)
        else cleanFiles known remove rest
      else
        let r := cleanFiles known remove rest
        (r.1, (image, node) :: r.2)
    else
      let r := cleanFiles known remove rest
      (r.1, (image, node) :: r.2)

/-- Lines 131-149: the loop over the listed directories of the build folder. A
failed `removeRecursively` is modelled as leaving the directory as it was. -/
def cleanDirs (isTarget known : String → Bool) (fs : FsOracle) :
    List (String × FsNode) → Bool × List (String × FsNode)
  | [] => (true, [])
  | (size, node) :: rest =>
    if node.listedAsDir then
      if !isTarget size then
        if !fs.removeRecursively size then (false, (size, node) :: rest)
        else cleanDirs isTarget known fs rest
      else
        let images := cleanFiles known (fs.remove size) node.content
        if !images.1 then (false, (size, node.withContent images.2) :: rest)
        else
          let r := cleanDirs isTarget known fs rest
          (r.1, (size, node.withContent images.2) :: r.2)
    else
      let r := cleanDirs isTarget known fs rest
      (r.1, (size, node) :: r.2)

/-- Lines 127-151: `cleanImages`. The build folder is `none` when it does not
exist and `some entries` otherwise; the result is the returned flag and the
build folder afterwards. -/
def cleanImages (stringToSize : String → QSize) (fs : FsOracle) (m : PackageModel)
    (excessiveOnly : Bool) (buildFolder : Option (List (String × FsNode))) :
    Bool × Option (List (String × FsNode)) :=
  if !excessiveOnly then
    if fs.removeBuildFolder then
      if fs.mkdirBuildFolder then (true, some []) else (false, none)
    else (false, buildFolder)
  else
    match buildFolder with
    | none => (true, none)
    | some entries =>
      let r := cleanDirs (fun size => m.targetSizes.contains (stringToSize size))
        (fun image => m.imageSettings.contains image) fs entries
      (r.1, some r.2)

/-- An oracle under which every deletion and creation succeeds. -/
def allowAll : FsOracle := ⟨true, true, fun _ => true, fun _ _ => true⟩

/-- An oracle under which every deletion and creation fails. -/
def denyAll : FsOracle := ⟨false, false, fun _ => false, fun _ _ => false⟩

/-- A model with the buckets `48x48` and `96x96` and the images `a.png` and
`b.png`. -/
def sampleModel : PackageModel :=
  ⟨[⟨48, 48⟩, ⟨96, 96⟩],
   ⟨[("a.png", ⟨[⟨64, 64⟩], [⟨64, 64⟩, ⟨64, 64⟩], false⟩),
     ("b.png", ⟨[⟨64, 64⟩], [⟨64, 64⟩, ⟨64, 64⟩], true⟩)]⟩⟩

/-- A build tree without hidden entries: the valid bucket `48x48` (a known
image, a stale image, the manifest and a subdirectory), the stale bucket `32x32`
and a bundle file. -/
def sampleTree : List (String × FsNode) :=
  [("48x48", FsNode.dir false [("a.png", FsNode.file false [1]),
      ("old.png", FsNode.file false [2]), ("package.qrc", FsNode.file false []),
      ("sub", FsNode.dir false [])]),
   ("32x32", FsNode.dir false [("a.png", FsNode.file false [1])]),
   ("48x48.rcc", FsNode.file false [9])]

/-- The scale factor of lines 171-172 in exact arithmetic, as the claims read
it: the larger of the two exact ratios. -/
def exactScaleFactor (sourceSize targetSize : QSize) : ℚ :=
  max ((targetSize.height : ℚ) / (sourceSize.height : ℚ))
      ((targetSize.width : ℚ) / (sourceSize.width : ℚ))

/-- Rounding toward zero, stated with floor and ceiling: the reading of
"truncated" that `toInt` is compared with. -/
def roundTowardZero (q : ℚ) : Int := if 0 ≤ q then ⌊q⌋ else ⌈q⌉

/-! ## Theorems: `qreal` arithmetic -/

theorem roundHalfEven_of_near (x : ℚ) (m : ℤ) (h : |x - m| < 1 / 2) : roundHalfEven x = m := by
  rw [abs_lt] at h
  unfold roundHalfEven
  by_cases hx : (m : ℚ) ≤ x
  · have hf : ⌊x⌋ = m := Int.floor_eq_iff.mpr ⟨hx, by linarith⟩
    rw [hf, if_pos (by linarith)]
  · have hf : ⌊x⌋ = m - 1 :=
      Int.floor_eq_iff.mpr ⟨by push_cast; linarith, by push_cast; linarith⟩
    rw [hf]
    push_cast
    rw [if_neg (by linarith), if_pos (by linarith)]
    ring

theorem log_eq_of_bounds (q : ℚ) (k : ℤ) (hq : 0 < q) (hlo : (2 : ℚ) ^ k ≤ q)
    (hhi : q < (2 : ℚ) ^ (k + 1)) : Int.log 2 q = k := by
  have h1 : k ≤ Int.log 2 q :=
    (Int.zpow_le_iff_le_log (by norm_num) hq).mp (by exact_mod_cast hlo)
  have h2 : Int.log 2 q < k + 1 :=
    (Int.lt_zpow_iff_log_lt (by norm_num) hq).mp (by exact_mod_cast hhi)
  omega

/-- Evaluation of `roundToDouble`: for `2^k ≤ |q| < 2^(k+1)` the result is the
rounded significand times `2^(k-52)`. -/
theorem roundToDouble_eq (q : ℚ) (k m : ℤ) (hlo : (2 : ℚ) ^ k ≤ |q|)
    (hhi : |q| < (2 : ℚ) ^ (k + 1)) (hm : roundHalfEven (q / 2 ^ (k - 52)) = m) :
    roundToDouble q = m * 2 ^ (k - 52) := by
  have habs : 0 < |q| := lt_of_lt_of_le (by positivity) hlo
  unfold roundToDouble
  rw [if_neg (abs_pos.mp habs), log_eq_of_bounds |q| k habs hlo hhi, hm]

theorem roundToDouble_zero : roundToDouble 0 = 0 := by
  simp [roundToDouble]

/-- A positive integer below `2^53` is a binary64 value. -/
theorem roundToDouble_intCast (n : ℤ) (h1 : 0 < n) (h2 : n < 2 ^ 53) :
    roundToDouble (n : ℚ) = n := by
  have hq : (0 : ℚ) < (n : ℚ) := by exact_mod_cast h1
  have hk0 : 0 ≤ Int.log 2 (n : ℚ) := by
    apply (Int.zpow_le_iff_le_log (by norm_num) hq).mp
    have : (1 : ℚ) ≤ (n : ℚ) := by exact_mod_cast h1
    simpa using this
  have hk1 : Int.log 2 (n : ℚ) < 53 := by
    apply (Int.lt_zpow_iff_log_lt (by norm_num) hq).mp
    have h3 : (n : ℚ) < 2 ^ 53 := by exact_mod_cast h2
    have h4 : ((2 : ℕ) : ℚ) ^ (53 : ℤ) = 2 ^ 53 := by norm_num
    rw [h4]
    exact h3
  obtain ⟨j, hj⟩ : ∃ j : ℕ, (j : ℤ) = 52 - Int.log 2 (n : ℚ) :=
    ⟨(52 - Int.log 2 (n : ℚ)).toNat, by omega⟩
  have he : (2 : ℚ) ^ (Int.log 2 (n : ℚ) - 52) = ((2 : ℚ) ^ j)⁻¹ := by
    rw [show Int.log 2 (n : ℚ) - 52 = -(j : ℤ) by omega, zpow_neg, zpow_natCast]
  have hp : (0 : ℚ) < (2 : ℚ) ^ j := by positivity
  unfold roundToDouble
  rw [if_neg (ne_of_gt hq), abs_of_pos hq, he]
  have hx : (n : ℚ) / ((2 : ℚ) ^ j)⁻¹ = ((n * 2 ^ j : ℤ) : ℚ) := by
    push_cast
    field_simp
  rw [hx, roundHalfEven_of_near _ (n * 2 ^ j) (by simp)]
  push_cast
  field_simp

theorem roundToDouble_one : roundToDouble 1 = 1 := by
  simpa using roundToDouble_intCast 1 (by norm_num) (by norm_num)

theorem roundToDouble_two : roundToDouble 2 = 2 := by
  simpa using roundToDouble_intCast 2 (by norm_num) (by norm_num)

theorem roundToDouble_three : roundToDouble 3 = 3 := by
  simpa using roundToDouble_intCast 3 (by norm_num) (by norm_num)

/-- Truncation by `Int.tdiv` on numerator and denominator is rounding toward
zero. -/
theorem tdiv_num_den (q : ℚ) : Int.tdiv q.num q.den = roundTowardZero q := by
  unfold roundTowardZero
  split
  · next h =>
    rw [Rat.floor_def, Int.tdiv_eq_ediv (Rat.num_nonneg.mpr h) (Int.ofNat_nonneg _)]
  · next h =>
    have hneg : 0 ≤ -q := by linarith [not_le.mp h]
    have h1 : Int.tdiv (-q).num (-q).den = ⌊-q⌋ := by
      rw [Rat.floor_def, Int.tdiv_eq_ediv (Rat.num_nonneg.mpr hneg) (Int.ofNat_nonneg _)]
    rw [Int.floor_neg] at h1
    simp only [Rat.neg_num, Rat.neg_den, Int.neg_tdiv] at h1
    exact neg_injective h1

theorem toInt_finite (q : ℚ) (hlo : INT_MIN ≤ roundTowardZero q)
    (hhi : roundTowardZero q ≤ INT_MAX) : toInt (Qreal.finite q) = roundTowardZero q := by
  simp only [toInt]
  rw [tdiv_num_den, if_pos ⟨hlo, hhi⟩]

theorem roundTowardZero_intCast (n : ℤ) : roundTowardZero (n : ℚ) = n := by
  unfold roundTowardZero
  split <;> simp

theorem toInt_intCast (n : ℤ) (hlo : INT_MIN ≤ n) (hhi : n ≤ INT_MAX) :
    toInt (Qreal.finite (n : ℚ)) = n := by
  rw [toInt_finite _ (by rw [roundTowardZero_intCast]; exact hlo)
    (by rw [roundTowardZero_intCast]; exact hhi), roundTowardZero_intCast]

theorem toInt_one : toInt (Qreal.finite 1) = 1 := by
  simpa using toInt_intCast 1 (by decide) (by decide)

theorem toInt_three : toInt (Qreal.finite 3) = 3 := by
  simpa using toInt_intCast 3 (by decide) (by decide)

theorem divInt_of_ne_zero (a b : Int) (hb : b ≠ 0) :
    Qreal.divInt a b = Qreal.finite (roundToDouble ((a : ℚ) / (b : ℚ))) := by
  simp [Qreal.divInt, hb]

theorem max_finite (a b : ℚ) :
    Qreal.max (Qreal.finite a) (Qreal.finite b) = Qreal.finite (if a < b then b else a) := by
  by_cases h : a < b <;> simp [Qreal.max, Qreal.lt, h]

theorem scaleFactor_finite (sourceSize targetSize : QSize)
    (hw : sourceSize.width ≠ 0) (hh : sourceSize.height ≠ 0) :
    scaleFactor sourceSize targetSize
      = Qreal.finite
          (if roundToDouble ((targetSize.height : ℚ) / (sourceSize.height : ℚ))
              < roundToDouble ((targetSize.width : ℚ) / (sourceSize.width : ℚ))
           then roundToDouble ((targetSize.width : ℚ) / (sourceSize.width : ℚ))
           else roundToDouble ((targetSize.height : ℚ) / (sourceSize.height : ℚ))) := by
  unfold scaleFactor
  rw [divInt_of_ne_zero _ _ hw, divInt_of_ne_zero _ _ hh, max_finite]

theorem finalSize_finite (imageSize : QSize) (q : ℚ) :
    finalSize imageSize (Qreal.finite q)
      = ⟨toInt (Qreal.finite (roundToDouble ((imageSize.width : ℚ) * q))),
         toInt (Qreal.finite (roundToDouble ((imageSize.height : ℚ) * q)))⟩ := rfl

theorem needScale_finite (q : ℚ) :
    needScale (Qreal.finite q) = !decide (|roundToDouble (q - 1)| ≤ epsilon) := rfl

theorem scaleFactor_1x1_1x3 : scaleFactor ⟨1, 1⟩ ⟨1, 3⟩ = Qreal.finite 3 := by
  rw [scaleFactor_finite _ _ (by decide) (by decide)]
  norm_num [roundToDouble_one, roundToDouble_three]

theorem scaleFactor_1x1_3x1 : scaleFactor ⟨1, 1⟩ ⟨3, 1⟩ = Qreal.finite 3 := by
  rw [scaleFactor_finite _ _ (by decide) (by decide)]
  norm_num [roundToDouble_one, roundToDouble_three]

theorem finalSize_1x1_three : finalSize ⟨1, 1⟩ (Qreal.finite 3) = ⟨3, 3⟩ := by
  rw [finalSize_finite]
  norm_num [roundToDouble_three, toInt_three]

theorem needScale_three : needScale (Qreal.finite 3) = true := by
  rw [needScale_finite]
  norm_num [roundToDouble_two, epsilon]

theorem roundToDouble_third : roundToDouble (1 / 3) = 6004799503160661 / 2 ^ 54 := by
  rw [roundToDouble_eq (1 / 3) (-2) 6004799503160661 (by norm_num [abs_of_pos])
    (by norm_num [abs_of_pos]) (roundHalfEven_of_near _ _ (by norm_num [abs_lt]))]
  norm_num

theorem scaleFactor_1x3_1x1 : scaleFactor ⟨1, 3⟩ ⟨1, 1⟩ = Qreal.finite 1 := by
  rw [scaleFactor_finite _ _ (by decide) (by decide)]
  norm_num [roundToDouble_one, roundToDouble_third]

theorem finalSize_1x3_one : finalSize ⟨1, 3⟩ (Qreal.finite 1) = ⟨1, 3⟩ := by
  rw [finalSize_finite]
  norm_num [roundToDouble_one, roundToDouble_three, toInt_one, toInt_three]

theorem needScale_one : needScale (Qreal.finite 1) = false := by
  rw [needScale_finite]
  norm_num [roundToDouble_zero, epsilon]

theorem scaled_size (resample : QImage → QSize → Int → Int → Nat)
    (img : QImage) (s : QSize) (hnn : img.isNull = false) (hs : s.isEmpty = false) :
    (img.scaled resample s).size = s := by
  unfold QImage.scaled
  simp only [hnn, hs]
  by_cases h : s = img.size
  · simp [h]
  · simp [h]

theorem copy_size (img : QImage) (x y w h : Int) (hnn : img.isNull = false)
    (hw : 1 ≤ w) (hh : 1 ≤ h) : (img.copy x y w h).size = ⟨w, h⟩ := by
  have h1 : ¬ (w = 0 ∧ h = 0) := by omega
  have h2 : ¬ (w ≤ 0 ∨ h ≤ 0) := by omega
  simp [QImage.copy, hnn, h1, h2]

/-- Whenever the crop step runs on a non-null source whose scaled size is at
least `1 x 1`, the saved image has the size `finalSize`, whatever the target. -/
theorem crop_step_keeps_finalSize (resample : QImage → QSize → Int → Int → Nat)
    (sourceImage : QImage) (sourceSize targetSize : QSize) (crop : Bool)
    (hnn : sourceImage.isNull = false)
    (hw : 1 ≤ (finalSize sourceImage.size (scaleFactor sourceSize targetSize)).width)
    (hh : 1 ≤ (finalSize sourceImage.size (scaleFactor sourceSize targetSize)).height)
    (hcrop : needCrop crop (finalSize sourceImage.size (scaleFactor sourceSize targetSize))
      targetSize = true) :
    (transform resample sourceImage sourceSize targetSize crop).size
      = finalSize sourceImage.size (scaleFactor sourceSize targetSize) := by
  have hne : (finalSize sourceImage.size (scaleFactor sourceSize targetSize)).isEmpty = false := by
    simp only [QSize.isEmpty, Bool.or_eq_false_iff, decide_eq_false_iff_not, not_lt]
    exact ⟨hw, hh⟩
  have hsc : (scaledImage resample sourceImage (scaleFactor sourceSize targetSize)).isNull
      = false := by
    unfold scaledImage
    split
    · unfold QImage.isNull
      rw [scaled_size resample sourceImage _ hnn hne]
      exact hne
    · exact hnn
  simp only [transform, hcrop, if_true]
  exact copy_size _ _ _ _ _ hsc hw hh

/-- For a scale factor of exactly `1` the saved image has the dimensions of a
non-null source whose dimensions fit an `int`, with or without the crop step. -/
theorem unit_scale_keeps_size (resample : QImage → QSize → Int → Int → Nat)
    (sourceImage : QImage) (sourceSize targetSize : QSize) (crop : Bool)
    (hnn : sourceImage.isNull = false)
    (hfit : sourceImage.size.width ≤ INT_MAX ∧ sourceImage.size.height ≤ INT_MAX)
    (hsf : scaleFactor sourceSize targetSize = Qreal.finite 1) :
    (transform resample sourceImage sourceSize targetSize crop).size = sourceImage.size := by
  have hdim : 1 ≤ sourceImage.size.width ∧ 1 ≤ sourceImage.size.height := by
    simpa [QImage.isNull, QSize.isEmpty] using hnn
  have hmax : INT_MAX < 2 ^ 53 := by decide
  have hmin : INT_MIN ≤ 1 := by decide
  have hfin : finalSize sourceImage.size (Qreal.finite 1) = sourceImage.size := by
    rw [finalSize_finite, mul_one, mul_one,
      roundToDouble_intCast _ (by omega) (by omega),
      roundToDouble_intCast _ (by omega) (by omega),
      toInt_intCast _ (by omega) hfit.1, toInt_intCast _ (by omega) hfit.2]
  simp only [transform, hsf, hfin, scaledImage, needScale_one]
  split
  · exact copy_size _ _ _ _ _ hnn hdim.1 hdim.2
  · rfl

/-- C1 (the code at the failing input): a `1 x 1` source scaled for the target
`1 x 3` with `crop = true`. The scaled size `3 x 3` exceeds the target width, the
crop step runs, and the rectangle passed to `copy` has the size `finalSize`, so
the saved image is `3 x 3` and not the target `1 x 3`. -/
theorem crop_saves_finalSize_not_targetSize (resample : QImage → QSize → Int → Int → Nat) :
    finalSize dot7.size (scaleFactor ⟨1, 1⟩ ⟨1, 3⟩) = ⟨3, 3⟩ ∧
    needCrop true (finalSize dot7.size (scaleFactor ⟨1, 1⟩ ⟨1, 3⟩)) ⟨1, 3⟩ = true ∧
    processImage resample (freshEnv dot7) ⟨1, 1⟩ ⟨1, 3⟩ true
      = some ((scaledImage resample dot7 (scaleFactor ⟨1, 1⟩ ⟨1, 3⟩)).copy 1 0 3 3) ∧
    (processImage resample (freshEnv dot7) ⟨1, 1⟩ ⟨1, 3⟩ true).map QImage.size = some ⟨3, 3⟩ ∧
    (processImage resample (freshEnv dot7) ⟨1, 1⟩ ⟨1, 3⟩ true).map QImage.size
      ≠ some ⟨1, 3⟩ := by
  have hsf : scaleFactor ⟨1, 1⟩ ⟨1, 3⟩ = Qreal.finite 3 := scaleFactor_1x1_1x3
  have hfin1 : finalSize ⟨1, 1⟩ (Qreal.finite 3) = ⟨3, 3⟩ := finalSize_1x1_three
  have hfin : finalSize dot7.size (Qreal.finite 3) = ⟨3, 3⟩ := hfin1
  have hs : needScale (Qreal.finite 3) = true := needScale_three
  have hc : needCrop true ⟨3, 3⟩ ⟨1, 3⟩ = true := by decide
  have hsc : (scaledImage resample dot7 (Qreal.finite 3)).size = ⟨3, 3⟩ := by
    simp [scaledImage, hs, hfin1, QImage.scaled, QImage.isNull, QSize.isEmpty, dot7]
  have hp : processImage resample (freshEnv dot7) ⟨1, 1⟩ ⟨1, 3⟩ true
      = some ((scaledImage resample dot7 (Qreal.finite 3)).copy 1 0 3 3) := by
    simp [processImage, freshEnv, transform, hsf, hfin, hc]
  have hcopy : ((scaledImage resample dot7 (Qreal.finite 3)).copy 1 0 3 3).size = ⟨3, 3⟩ := by
    simp [QImage.copy, QImage.isNull, hsc, QSize.isEmpty]
  rw [hsf, hfin]
  refine ⟨rfl, hc, hp, ?_, ?_⟩
  · rw [hp]; simp [hcopy]
  · rw [hp]; simp [hcopy]

/-- C2 (the code at the failing input): a `1 x 1` source scaled for the target
`3 x 1` with `crop = false`. The scaled height `3` exceeds the target height `1`,
so the condition of line 182 holds although `crop` is false, and `copy` runs with
the rectangle `(0, 1, 3, 3)`: the saved image is the scaled image moved up by one
row, its last row blank. With the stand-in interpolation `nearest` the saved image
differs from the scaled one. -/
theorem crop_runs_although_crop_false (resample : QImage → QSize → Int → Int → Nat) :
    needCrop false (finalSize dot7.size (scaleFactor ⟨1, 1⟩ ⟨3, 1⟩)) ⟨3, 1⟩ = true ∧
    processImage resample (freshEnv dot7) ⟨1, 1⟩ ⟨3, 1⟩ false
      = some ((scaledImage resample dot7 (scaleFactor ⟨1, 1⟩ ⟨3, 1⟩)).copy 0 1 3 3) ∧
    ((scaledImage resample dot7 (scaleFactor ⟨1, 1⟩ ⟨3, 1⟩)).copy 0 1 3 3).pixel 0 2 = 0 ∧
    processImage nearest (freshEnv dot7) ⟨1, 1⟩ ⟨3, 1⟩ false
      ≠ some (scaledImage nearest dot7 (scaleFactor ⟨1, 1⟩ ⟨3, 1⟩)) := by
  have hsf : scaleFactor ⟨1, 1⟩ ⟨3, 1⟩ = Qreal.finite 3 := scaleFactor_1x1_3x1
  have hfin1 : finalSize ⟨1, 1⟩ (Qreal.finite 3) = ⟨3, 3⟩ := finalSize_1x1_three
  have hfin : finalSize dot7.size (Qreal.finite 3) = ⟨3, 3⟩ := hfin1
  have hs : needScale (Qreal.finite 3) = true := needScale_three
  have hc : needCrop false ⟨3, 3⟩ ⟨3, 1⟩ = true := by decide
  have hsc : ∀ r, (scaledImage r dot7 (Qreal.finite 3)).size = ⟨3, 3⟩ := by
    intro r
    simp [scaledImage, hs, hfin1, QImage.scaled, QImage.isNull, QSize.isEmpty, dot7]
  have hp : ∀ r, processImage r (freshEnv dot7) ⟨1, 1⟩ ⟨3, 1⟩ false
      = some ((scaledImage r dot7 (Qreal.finite 3)).copy 0 1 3 3) := by
    intro r
    simp [processImage, freshEnv, transform, hsf, hfin, hc]
  have hblank : ∀ r, ((scaledImage r dot7 (Qreal.finite 3)).copy 0 1 3 3).pixel 0 2 = 0 := by
    intro r
    simp [QImage.copy, QImage.isNull, hsc, QSize.isEmpty]
  have hnear : (scaledImage nearest dot7 (Qreal.finite 3)).pixel 0 2 = 7 := by
    simp [scaledImage, hs, hfin1, QImage.scaled, QImage.isNull, QSize.isEmpty, dot7, nearest]
  rw [hsf, hfin]
  refine ⟨hc, hp resample, hblank resample, ?_⟩
  rw [hp nearest]
  intro h
  have h2 := congrArg (fun i => QImage.pixel i 0 2) (Option.some.inj h)
  simp only [hblank nearest, hnear] at h2
  exact absurd h2 (by decide)

/-- C6 (the code at the failing input): a `1 x 3` source with pixel column
`1, 2, 3`, `sourceSize = 1 x 3`, `targetSize = 1 x 1`, `crop = false`. The scale
factor is exactly `1`, nothing is resampled, but the source height `3` exceeds
the target height `1`, so `copy` runs with the rectangle `(0, 1, 1, 3)`. The
saved image keeps the size `1 x 3`, yet its first pixel is `2`, not `1`: it is
not the source image. -/
theorem unit_scale_without_crop_is_shifted (resample : QImage → QSize → Int → Int → Nat) :
    scaleFactor ⟨1, 3⟩ ⟨1, 1⟩ = Qreal.finite 1 ∧
    processImage resample (freshEnv column123) ⟨1, 3⟩ ⟨1, 1⟩ false
      = some (column123.copy 0 1 1 3) ∧
    (column123.copy 0 1 1 3).size = column123.size ∧
    (column123.copy 0 1 1 3).pixel 0 0 = 2 ∧
    column123.pixel 0 0 = 1 ∧
    processImage resample (freshEnv column123) ⟨1, 3⟩ ⟨1, 1⟩ false ≠ some column123 := by
  have hsf : scaleFactor ⟨1, 3⟩ ⟨1, 1⟩ = Qreal.finite 1 := scaleFactor_1x3_1x1
  have hfin1 : finalSize ⟨1, 3⟩ (Qreal.finite 1) = ⟨1, 3⟩ := finalSize_1x3_one
  have hfin : finalSize column123.size (Qreal.finite 1) = ⟨1, 3⟩ := hfin1
  have hs : needScale (Qreal.finite 1) = false := needScale_one
  have hc : needCrop false ⟨1, 3⟩ ⟨1, 1⟩ = true := by decide
  have hp : processImage resample (freshEnv column123) ⟨1, 3⟩ ⟨1, 1⟩ false
      = some (column123.copy 0 1 1 3) := by
    simp [processImage, freshEnv, transform, hsf, hfin, hc, scaledImage, hs]
  have hpix : (column123.copy 0 1 1 3).pixel 0 0 = 2 := by
    simp [QImage.copy, QImage.isNull, QSize.isEmpty, column123]
  have hsrc : column123.pixel 0 0 = 1 := by simp [column123]
  refine ⟨hsf, hp, ?_, hpix, hsrc, ?_⟩
  · simp [QImage.copy, QImage.isNull, QSize.isEmpty, column123]
  · rw [hp]
    intro h
    have h2 := congrArg (fun i => QImage.pixel i 0 0) (Option.some.inj h)
    simp only [hpix, hsrc] at h2
    exact absurd h2 (by decide)

theorem roundToDouble_64_49 : roundToDouble (64 / 49) = 5882252574524729 / 2 ^ 52 := by
  rw [roundToDouble_eq (64 / 49) 0 5882252574524729 (by norm_num [abs_of_pos])
    (by norm_num [abs_of_pos]) (roundHalfEven_of_near _ _ (by norm_num [abs_lt]))]
  norm_num

theorem roundToDouble_49_mul : roundToDouble (49 * (5882252574524729 / 2 ^ 52))
    = 64 - 1 / 2 ^ 47 := by
  rw [roundToDouble_eq _ 5 (2 ^ 53 - 1) (by norm_num [abs_of_pos])
    (by norm_num [abs_of_pos]) (roundHalfEven_of_near _ _ (by norm_num [abs_lt]))]
  norm_num

theorem toInt_below_64 : toInt (Qreal.finite (64 - 1 / 2 ^ 47)) = 63 := by
  have h : roundTowardZero (64 - 1 / 2 ^ 47) = 63 := by
    unfold roundTowardZero
    rw [if_pos (by norm_num), Int.floor_eq_iff]
    norm_num
  rw [toInt_finite _ (by rw [h]; decide) (by rw [h]; decide), h]

/-- C5 (the code at the failing input): a `49 x 49` source with
`sourceSize = 49 x 49` and `targetSize = 64 x 64`. In binary64 the quotient
`64 / 49` rounds down, the product `49 * (64 / 49)` rounds to `64 - 2^-47`, and
the conversion to `int` truncates it to `63`: `finalSize` is `63 x 63`, below
the target on both axes, while the exact product is `64`. -/
theorem finalSize_below_target :
    scaleFactor ⟨49, 49⟩ ⟨64, 64⟩ = Qreal.finite (5882252574524729 / 2 ^ 52) ∧
    Qreal.mulInt 49 (scaleFactor ⟨49, 49⟩ ⟨64, 64⟩) = Qreal.finite (64 - 1 / 2 ^ 47) ∧
    finalSize (blank 49 49).size (scaleFactor ⟨49, 49⟩ ⟨64, 64⟩) = ⟨63, 63⟩ ∧
    (finalSize (blank 49 49).size (scaleFactor ⟨49, 49⟩ ⟨64, 64⟩)).width
      < (QSize.mk 64 64).width ∧
    (finalSize (blank 49 49).size (scaleFactor ⟨49, 49⟩ ⟨64, 64⟩)).height
      < (QSize.mk 64 64).height ∧
    (49 : ℚ) * exactScaleFactor ⟨49, 49⟩ ⟨64, 64⟩ = 64 := by
  have hsf : scaleFactor ⟨49, 49⟩ ⟨64, 64⟩ = Qreal.finite (5882252574524729 / 2 ^ 52) := by
    rw [scaleFactor_finite _ _ (by decide) (by decide)]
    norm_num [roundToDouble_64_49]
  have hmul : Qreal.mulInt 49 (Qreal.finite (5882252574524729 / 2 ^ 52))
      = Qreal.finite (64 - 1 / 2 ^ 47) := by
    simp only [Qreal.mulInt]
    rw [← roundToDouble_49_mul]
    norm_num
  have hfin : finalSize (blank 49 49).size (Qreal.finite (5882252574524729 / 2 ^ 52))
      = ⟨63, 63⟩ := by
    show finalSize ⟨49, 49⟩ (Qreal.finite (5882252574524729 / 2 ^ 52)) = ⟨63, 63⟩
    unfold finalSize
    rw [hmul, toInt_below_64]
  rw [hsf, hmul, hfin]
  refine ⟨rfl, rfl, rfl, by decide, by decide, ?_⟩
  norm_num [exactScaleFactor]

theorem buildQRCLoop_written (sizeToString : QSize → String) (canOpen : String → Bool)
    (buildFolder dirName : String) (imageSettings : QMap ImageSetting) (sizes : List QSize) :
    ∀ w ∈ (buildQRCLoop sizeToString canOpen buildFolder dirName imageSettings sizes).2,
      w.2 = writeManifest dirName imageSettings := by
  induction sizes with
  | nil => intro w hw; simp [buildQRCLoop] at hw
  | cons size rest ih =>
    intro w hw
    unfold buildQRCLoop at hw
    dsimp only at hw
    split at hw
    · rcases List.mem_cons.mp hw with h1 | h1
      · rw [h1]
      · exact ih w h1
    · simp at hw

theorem buildQRCLoop_all_open (sizeToString : QSize → String) (canOpen : String → Bool)
    (buildFolder dirName : String) (imageSettings : QMap ImageSetting) (sizes : List QSize)
    (hopen : ∀ size ∈ sizes, canOpen (qrcPath buildFolder (sizeToString size)) = true) :
    (buildQRCLoop sizeToString canOpen buildFolder dirName imageSettings sizes).1 = true ∧
    (buildQRCLoop sizeToString canOpen buildFolder dirName imageSettings sizes).2.map Prod.fst
      = sizes.map (fun size => qrcPath buildFolder (sizeToString size)) := by
  induction sizes with
  | nil => simp [buildQRCLoop]
  | cons size rest ih =>
    have h1 := hopen size (List.mem_cons_self _ _)
    have h2 := ih (fun x hx => hopen x (List.mem_cons_of_mem _ hx))
    unfold buildQRCLoop
    simp only [h1, if_true, List.map_cons]
    exact ⟨h2.1, by rw [h2.2]⟩

theorem keys_eq_of_same_contains {V : Type} (m1 m2 : QMap V) (h1 : m1.WF) (h2 : m2.WF)
    (h : ∀ k, m1.contains k = m2.contains k) : m1.keys = m2.keys := by
  apply List.eq_of_perm_of_sorted _ h1 h2
  apply (List.perm_ext_iff_of_nodup (List.Sorted.nodup h1) (List.Sorted.nodup h2)).mpr
  intro k
  have hk := h k
  unfold QMap.contains at hk
  constructor
  · intro hm
    have h3 : m1.keys.contains k = true := List.contains_iff_exists_mem_beq.mpr ⟨k, hm, by simp⟩
    rw [hk] at h3
    simpa using h3
  · intro hm
    have h3 : m2.keys.contains k = true := List.contains_iff_exists_mem_beq.mpr ⟨k, hm, by simp⟩
    rw [← hk] at h3
    simpa using h3

/-- C8: every manifest that `buildQRC` writes is one `RCC` document with one
`qresource` group whose prefix is the source folder name and, inside it, one
`file` entry per key of the image settings; the keys come in strictly
increasing order, so each path occurs once, and they are exactly the known
image paths. The document depends only on the set of paths (any model with the
same set gives the same document), so every bucket gets the same entries; when
every file can be opened, `buildQRC` returns `true` with one manifest per
bucket. -/
theorem buildQRC_manifest (sizeToString : QSize → String) (canOpen : String → Bool)
    (buildFolder dirName : String) (m : PackageModel) (hwf : m.imageSettings.WF) :
    (∀ w ∈ (buildQRC sizeToString canOpen buildFolder dirName m).2,
      w.2 = [XmlToken.startElement "RCC", XmlToken.startElement "qresource",
              XmlToken.attribute "prefix" dirName]
            ++ m.imageSettings.keys.map (fun k => XmlToken.textElement "file" k)
            ++ [XmlToken.endElement, XmlToken.endElement]) ∧
    m.imageSettings.keys.Sorted (· < ·) ∧
    m.imageSettings.keys.Nodup ∧
    (∀ k, k ∈ m.imageSettings.keys ↔ m.imageSettings.contains k = true) ∧
    (∀ other : PackageModel, other.imageSettings.WF →
      (∀ k, other.imageSettings.contains k = m.imageSettings.contains k) →
      writeManifest dirName other.imageSettings = writeManifest dirName m.imageSettings) ∧
    ((∀ size ∈ m.targetSizes, canOpen (qrcPath buildFolder (sizeToString size)) = true) →
      (buildQRC sizeToString canOpen buildFolder dirName m).1 = true ∧
      (buildQRC sizeToString canOpen buildFolder dirName m).2.map Prod.fst
        = m.targetSizes.map (fun size => qrcPath buildFolder (sizeToString size))) := by
  refine ⟨?_, hwf, List.Sorted.nodup hwf, ?_, ?_, ?_⟩
  · intro w hw
    exact buildQRCLoop_written sizeToString canOpen buildFolder dirName m.imageSettings
      m.targetSizes w hw
  · intro k
    simp [QMap.contains]
  · intro other hother hsame
    unfold writeManifest
    rw [keys_eq_of_same_contains other.imageSettings m.imageSettings hother hwf hsame]
  · intro hopen
    exact buildQRCLoop_all_open sizeToString canOpen buildFolder dirName m.imageSettings
      m.targetSizes hopen

theorem sampleModel_WF : sampleModel.imageSettings.WF := by
  simp only [QMap.WF, QMap.keys, sampleModel, List.map_cons, List.map_nil]
  refine List.sorted_cons.mpr ⟨?_, List.sorted_singleton _⟩
  intro b hb
  rw [List.mem_singleton.mp hb, String.lt_iff_toList_lt]
  decide

theorem buildQRC_manifest_witness :
    sampleModel.imageSettings.WF ∧
    (buildQRC tokenTable (fun _ => true) "build" "icons" sampleModel).1 = true ∧
    (buildQRC tokenTable (fun _ => true) "build" "icons" sampleModel).2.map Prod.fst
      = sampleModel.targetSizes.map (fun size => qrcPath "build" (tokenTable size)) :=
  ⟨sampleModel_WF,
   (buildQRC_manifest tokenTable (fun _ => true) "build" "icons" sampleModel
      sampleModel_WF).2.2.2.2.2 (fun _ _ => rfl)⟩

/-! ## Theorems: `buildRCC` -/

theorem allSucceeded_iff (results : List Bool) :
    allSucceeded results = true ↔ ∀ r ∈ results, r = true := by
  induction results with
  | nil => simp [allSucceeded]
  | cons r rest ih =>
    cases r
    · simp [allSucceeded]
    · simp [allSucceeded, ih]

theorem processPoolFrom_length (arg : String → String → String)
    (sizeToString : QSize → String) (buildPath : String) (targetSizes : List QSize) :
    ∀ s, (processPoolFrom arg sizeToString buildPath s targetSizes).length
      = targetSizes.length := by
  induction targetSizes with
  | nil => intro s; rfl
  | cons size rest ih => intro s; simp [processPoolFrom, ih]

theorem processPoolFrom_arguments (arg : String → String → String)
    (sizeToString : QSize → String) (buildPath : String) (targetSizes : List QSize) :
    ∀ s, (processPoolFrom arg sizeToString buildPath s targetSizes).map QProcess.arguments
      = targetSizes.map (fun size =>
          ["-binary", arg (arg "%1/%2" buildPath) (sizeToString size) ++ "/package.qrc",
           "-o", arg (arg "%1/%2" buildPath) (sizeToString size) ++ ".rcc"]) := by
  induction targetSizes with
  | nil => intro s; rfl
  | cons size rest ih => intro s; simp [processPoolFrom, ih]

theorem processPoolFrom_index (arg : String → String → String)
    (sizeToString : QSize → String) (buildPath : String) (targetSizes : List QSize) :
    ∀ s, (processPoolFrom arg sizeToString buildPath s targetSizes).map QProcess.index
      = List.range' s targetSizes.length := by
  induction targetSizes with
  | nil => intro s; rfl
  | cons size rest ih => intro s; simp [processPoolFrom, ih, List.range'_succ]

theorem processPoolFrom_program (arg : String → String → String)
    (sizeToString : QSize → String) (buildPath : String) (targetSizes : List QSize) :
    ∀ s, (processPoolFrom arg sizeToString buildPath s targetSizes).map QProcess.program
      = targetSizes.map (fun _ => "rcc") := by
  induction targetSizes with
  | nil => intro s; rfl
  | cons size rest ih =>
    intro s
    simp only [processPoolFrom, List.map_cons, ih]

theorem processResource_iff (run : ProcessRun) :
    processResource run = true ↔
      run.waitForStarted = true ∧ run.waitForFinished (10 * 60 * 1000) = true ∧
      run.exitCode = 0 := by
  simp [processResource, and_assoc]

/-- C4: `buildRCC` creates one job per target bucket (the pool has the length of
the bucket list, job `i` is the `rcc` call for bucket `i`), and the result list
holds for every job of the pool the outcome of that job alone, whatever the
other jobs do: a job succeeds if and only if its process started, finished
within `60000 * 10` ms, which is ten minutes, and reported exit code `0`.
`buildRCC` returns `true` if and only if every job succeeded, so one job that
fails to start, times out or exits non-zero makes the result `false`. -/
theorem buildRCC_iff_all_jobs_succeed (exec : QProcess → ProcessRun)
    (arg : String → String → String) (sizeToString : QSize → String)
    (buildPath : String) (targetSizes : List QSize) :
    (processPool arg sizeToString buildPath targetSizes).length = targetSizes.length ∧
    (processPool arg sizeToString buildPath targetSizes).map QProcess.index
      = List.range targetSizes.length ∧
    (processPool arg sizeToString buildPath targetSizes).map QProcess.program
      = targetSizes.map (fun _ => "rcc") ∧
    (processPool arg sizeToString buildPath targetSizes).map QProcess.arguments
      = targetSizes.map (fun size =>
          ["-binary", arg (arg "%1/%2" buildPath) (sizeToString size) ++ "/package.qrc",
           "-o", arg (arg "%1/%2" buildPath) (sizeToString size) ++ ".rcc"]) ∧
    jobResults exec (processPool arg sizeToString buildPath targetSizes)
      = (processPool arg sizeToString buildPath targetSizes).map (fun p =>
          decide ((exec p).waitForStarted = true ∧
            (exec p).waitForFinished (10 * 60 * 1000) = true ∧ (exec p).exitCode = 0)) ∧
    (buildRCC exec arg sizeToString buildPath targetSizes = true ↔
      ∀ p ∈ processPool arg sizeToString buildPath targetSizes,
        (exec p).waitForStarted = true ∧ (exec p).waitForFinished (10 * 60 * 1000) = true ∧
        (exec p).exitCode = 0) ∧
    ((∃ p ∈ processPool arg sizeToString buildPath targetSizes,
        (exec p).waitForStarted = false ∨ (exec p).waitForFinished (10 * 60 * 1000) = false ∨
        (exec p).exitCode ≠ 0) →
      buildRCC exec arg sizeToString buildPath targetSizes = false) := by
  have hiff : buildRCC exec arg sizeToString buildPath targetSizes = true ↔
      ∀ p ∈ processPool arg sizeToString buildPath targetSizes,
        (exec p).waitForStarted = true ∧ (exec p).waitForFinished (10 * 60 * 1000) = true ∧
        (exec p).exitCode = 0 := by
    unfold buildRCC jobResults
    rw [allSucceeded_iff]
    constructor
    · intro h p hp
      exact (processResource_iff (exec p)).mp (h _ (List.mem_map_of_mem _ hp))
    · intro h r hr
      rcases List.mem_map.mp hr with ⟨p, hp, rfl⟩
      exact (processResource_iff (exec p)).mpr (h p hp)
  refine ⟨processPoolFrom_length arg sizeToString buildPath targetSizes 0, ?_,
    processPoolFrom_program arg sizeToString buildPath targetSizes 0,
    processPoolFrom_arguments arg sizeToString buildPath targetSizes 0, ?_, hiff, ?_⟩
  · rw [List.range_eq_range']
    exact processPoolFrom_index arg sizeToString buildPath targetSizes 0
  · unfold jobResults
    apply List.map_congr_left
    intro p _
    rw [Bool.eq_iff_iff, processResource_iff]
    simp
  · rintro ⟨p, hp, hfail⟩
    cases hb : buildRCC exec arg sizeToString buildPath targetSizes
    · rfl
    · have h := hiff.mp hb p hp
      rcases hfail with h1 | h1 | h1
      · rw [h.1] at h1; exact absurd h1 (by decide)
      · rw [h.2.1] at h1; exact absurd h1 (by decide)
      · exact absurd h.2.2 h1

/-! ## Theorems: `cleanImages` -/

theorem cleanFiles_again (known : String → Bool) (remove other : String → Bool)
    (content : List (String × FsNode)) :
    (cleanFiles known remove content).1 = true →
      cleanFiles known other (cleanFiles known remove content).2
        = (true, (cleanFiles known remove content).2) := by
  induction content with
  | nil => intro _; rfl
  | cons e rest ih =>
    obtain ⟨name, node⟩ := e
    cases hl : node.listedAsFile
    · intro h
      have h1 : (cleanFiles known remove rest).1 = true := by
        simpa [cleanFiles, hl] using h
      simp [cleanFiles, hl, ih h1]
    · cases hk : known name
      · cases hr : remove name
        · simp [cleanFiles, hl, hk, hr]
        · simpa [cleanFiles, hl, hk, hr] using ih
      · intro h
        have h1 : (cleanFiles known remove rest).1 = true := by
          simpa [cleanFiles, hl, hk] using h
        simp [cleanFiles, hl, hk, ih h1]

theorem listedAsDir_withContent (node : FsNode) (entries : List (String × FsNode)) :
    (node.withContent entries).listedAsDir = node.listedAsDir := by
  cases node <;> rfl

theorem content_withContent (node : FsNode) (entries : List (String × FsNode))
    (h : node.listedAsDir = true) : (node.withContent entries).content = entries := by
  cases node with
  | file hidden data => simp [FsNode.listedAsDir] at h
  | dir hidden sub => rfl

theorem withContent_withContent (node : FsNode) (a b : List (String × FsNode)) :
    (node.withContent a).withContent b = node.withContent b := by
  cases node <;> rfl

theorem cleanDirs_again (isTarget known : String → Bool) (fs other : FsOracle)
    (entries : List (String × FsNode)) :
    (cleanDirs isTarget known fs entries).1 = true →
      cleanDirs isTarget known other (cleanDirs isTarget known fs entries).2
        = (true, (cleanDirs isTarget known fs entries).2) := by
  induction entries with
  | nil => intro _; rfl
  | cons e rest ih =>
    obtain ⟨name, node⟩ := e
    cases hl : node.listedAsDir
    · intro h
      have h1 : (cleanDirs isTarget known fs rest).1 = true := by
        simpa [cleanDirs, hl] using h
      simp [cleanDirs, hl, ih h1]
    · cases ht : isTarget name
      · cases hr : fs.removeRecursively name
        · simp [cleanDirs, hl, ht, hr]
        · simpa [cleanDirs, hl, ht, hr] using ih
      · cases hf : (cleanFiles known (fs.remove name) node.content).1
        · simp [cleanDirs, hl, ht, hf]
        · intro h
          have h1 : (cleanDirs isTarget known fs rest).1 = true := by
            simpa [cleanDirs, hl, ht, hf] using h
          have h2 := cleanFiles_again known (fs.remove name) (other.remove name)
            node.content hf
          simp [cleanDirs, hl, ht, hf, h2, ih h1, listedAsDir_withContent,
            content_withContent, withContent_withContent]

theorem cleanImages_incremental (stringToSize : String → QSize) (fs : FsOracle)
    (m : PackageModel) (entries : List (String × FsNode)) :
    cleanImages stringToSize fs m true (some entries)
      = ((cleanDirs (fun size => m.targetSizes.contains (stringToSize size))
            (fun image => m.imageSettings.contains image) fs entries).1,
         some (cleanDirs (fun size => m.targetSizes.contains (stringToSize size))
            (fun image => m.imageSettings.contains image) fs entries).2) := rfl

/-- C7: if `cleanImages` succeeds on a build tree, a second run in the same mode
with the same configuration on the resulting tree succeeds and leaves that tree
as it is. In incremental mode this holds whatever deletions the file system
would allow in the second run, so the second run attempts no deletion; in full
mode the second run, whenever it succeeds, again leaves the empty build
folder. -/
theorem cleanImages_idempotent (stringToSize : String → QSize) (fs : FsOracle)
    (m : PackageModel) (excessiveOnly : Bool) (buildFolder : Option (List (String × FsNode)))
    (hok : (cleanImages stringToSize fs m excessiveOnly buildFolder).1 = true) :
    cleanImages stringToSize fs m excessiveOnly
        (cleanImages stringToSize fs m excessiveOnly buildFolder).2
      = (true, (cleanImages stringToSize fs m excessiveOnly buildFolder).2) ∧
    (excessiveOnly = true → ∀ other : FsOracle,
      cleanImages stringToSize other m excessiveOnly
          (cleanImages stringToSize fs m excessiveOnly buildFolder).2
        = (true, (cleanImages stringToSize fs m excessiveOnly buildFolder).2)) ∧
    (excessiveOnly = false → ∀ other : FsOracle,
      (cleanImages stringToSize other m excessiveOnly
          (cleanImages stringToSize fs m excessiveOnly buildFolder).2).1 = true →
      (cleanImages stringToSize other m excessiveOnly
          (cleanImages stringToSize fs m excessiveOnly buildFolder).2).2
        = (cleanImages stringToSize fs m excessiveOnly buildFolder).2) := by
  cases excessiveOnly with
  | false =>
    cases h1 : fs.removeBuildFolder
    · simp [cleanImages, h1] at hok
    · cases h2 : fs.mkdirBuildFolder
      · simp [cleanImages, h1, h2] at hok
      · refine ⟨by simp [cleanImages, h1, h2], by simp, ?_⟩
        intro _ other
        cases h3 : other.removeBuildFolder <;> cases h4 : other.mkdirBuildFolder <;>
          simp [cleanImages, h1, h2, h3, h4]
  | true =>
    cases buildFolder with
    | none => simp [cleanImages]
    | some entries =>
      have h1 : (cleanDirs (fun size => m.targetSizes.contains (stringToSize size))
          (fun image => m.imageSettings.contains image) fs entries).1 = true := by
        simpa [cleanImages] using hok
      have h2 := fun other => cleanDirs_again _ _ fs other entries h1
      refine ⟨?_, ?_, by simp⟩
      · simp only [cleanImages_incremental]
        rw [h2 fs]
      · intro _ other
        simp only [cleanImages_incremental]
        rw [h2 other]

theorem cleanImages_idempotent_witness :
    (cleanImages sizeTable allowAll sampleModel true (some sampleTree)).1 = true ∧
    cleanImages sizeTable denyAll sampleModel true
        (cleanImages sizeTable allowAll sampleModel true (some sampleTree)).2
      = (true, (cleanImages sizeTable allowAll sampleModel true (some sampleTree)).2) :=
  ⟨rfl,
   (cleanImages_idempotent sizeTable allowAll sampleModel true (some sampleTree) rfl).2.1
     rfl denyAll⟩

